import Mathlib

/-!
# Verification of the `EditableBody` encoding cache
(`src/model/http/editable-body.ts`)

`EditableBody` holds a decoded byte payload and a derived, asynchronously
computed encoded payload. Edits to the decoded body (`updateDecodedBody`) and
structural changes of the normalized content-encoding header trigger a
throttled recomputation (`updateEncodedBody`, `_.throttle(..., 500,
{ leading: true, trailing: true })`). Each recomputation run starts an
asynchronous encoding task, synchronously publishes that task's promise as
`_encodingPromise`, and on completion commits its result to `_encodedBody`
only if it is still the most recently scheduled task.

We embed the class as an explicit state machine. The only suspension point in
the source is the awaited `encodeBody` call, so every other piece of code runs
atomically; events of the machine are exactly the atomic blocks of the source:

* `setDecoded t b` — the `updateDecodedBody` action at (virtual) time `t`,
  together with the mobx `reaction` on `_decodedBody` that synchronously
  invokes the throttled `updateEncodedBody`;
* `setHeader t h` — a change of the value returned by the
  `getContentEncodingHeader` accessor; the `reaction` on the
  `@computed.struct get contentEncodings` fires only when the normalized
  encoding sequence changes structurally;
* `timerFire t` — the trailing-edge timer of the lodash throttle wrapper;
* `complete id outcome` — the settlement of the awaited external
  `encodeBody` promise of the in-flight task `id` (success with bytes, or
  rejection), followed by the synchronous continuation of the async function:
  the `.catch` fallback, `logError`, the `runInAction` currency-checked
  commit, and the resolution of the task's own observable promise.

Buffers are byte lists (`List Nat`); promises are identified by the generation
number (`Nat`) of their task, which models JS object identity of
`ObservablePromise` values: the source compares promise identity
(`this._encodingPromise === encodeBodyPromise`) and each run creates a fresh
promise object, so distinct generations model distinct identities.
-/

namespace EditableBodySpec

/-- Byte buffers (`Buffer` in the source) as lists of bytes. -/
abbrev Bytes := List Nat

/-- An ordered sequence of content-encoding names. -/
abbrev Encodings := List String

/-- The raw value returned by the `getContentEncodingHeader` accessor:
`string | string[] | undefined` in the source. -/
inductive HeaderValue where
  | absent
  | single (value : String)
  | multi (values : List String)
deriving DecidableEq, Repr, Inhabited

/-- Split a character list on commas (auxiliary for header normalization). -/
def splitCommaAux : List Char → List Char → List (List Char)
  | [], acc => [acc.reverse]
  | c :: rest, acc =>
    if c = ',' then acc.reverse :: splitCommaAux rest []
    else splitCommaAux rest (c :: acc)

/-- Strip leading and trailing spaces from a character list. -/
def trimChars (l : List Char) : List Char :=
  ((l.dropWhile (· = ' ')).reverse.dropWhile (· = ' ')).reverse

/-- ASCII lowercase of one character. -/
def lowerChar (c : Char) : Char :=
  if 'A' ≤ c ∧ c ≤ 'Z' then Char.ofNat (c.toNat + 32) else c

/-- Normalize one raw header string into its list of encoding tokens:
split on commas, trim surrounding whitespace, lowercase. -/
def headerTokens (s : String) : List String :=
  (splitCommaAux s.data []).map (fun cs => String.mk ((trimChars cs).map lowerChar))

/-- Modelled from the spec: `asHeaderArray` (imported by the source from
`src/util/headers`, which is not part of the excerpt). Per the spec it
normalizes a raw content-encoding header value — a single string, a sequence
of strings, or absent — into one canonical ordered sequence of lowercase
encoding tokens; an absent header yields the empty sequence, and each string
may itself hold several comma-separated tokens. -/
def asHeaderArray : HeaderValue → Encodings
  | .absent => []
  | .single s => headerTokens s
  | .multi l => l.flatMap headerTokens

/-- One in-flight asynchronous encoding run: the async function body of
`updateEncodedBody` between its synchronous start and the settlement of the
awaited `encodeBody(this._decodedBody, encodings)` call. It captures the
decoded body and the normalized encodings that were read synchronously at
scheduling time and passed to `encodeBody`. `id` is the task's generation
number, standing for the identity of its `encodeBodyPromise`. -/
structure EncodingTask where
  id : Nat
  capturedDecoded : Bytes
  capturedEncodings : Encodings
deriving DecidableEq, Repr

/-- How the external `encodeBody` promise settles: fulfilled with encoded
bytes, or rejected (the error value itself is never inspected by the source
beyond being forwarded to `logError`). -/
inductive TaskOutcome where
  | ok (bytes : Bytes)
  | error
deriving DecidableEq, Repr

/-- The throttle interval of `updateEncodedBody` (500 in the source). -/
def throttleInterval : Nat := 500

/-- The state of one `EditableBody` instance, plus the bookkeeping needed to
observe the external interactions (encoder invocations, error reports,
promise resolutions).

* `decodedBody`, `encodedBody` — the `@observable.ref` fields `_decodedBody`
  and `_encodedBody`;
* `encodingPromise` — the generation number of the promise held in
  `_encodingPromise`;
* `headerValue` — the current return value of the `getContentEncodingHeader`
  accessor;
* `prevEncodings` — the last value of the `@computed.struct contentEncodings`
  observed by the mobx reaction (the reaction fires only on structural
  change);
* `nextTaskId` — the next fresh generation number;
* `inflight` — scheduled tasks whose `encodeBody` promise has not settled;
* `resolved` — settled task promises with the value each resolved to
  (most recent first);
* `errorLog` — the `encodings` contexts of the `logError` calls made so far;
* `encodeCalls` — how many times the external `encodeBody` was invoked;
* `lastInvoke`, `trailingPending` — the lodash throttle wrapper's state:
  the time of the last actual run, and whether a trailing-edge run is due;
* `now` — current virtual time, to keep traces time-monotone. -/
structure EditableBody where
  decodedBody : Bytes
  encodedBody : Option Bytes
  encodingPromise : Nat
  headerValue : HeaderValue
  prevEncodings : Encodings
  nextTaskId : Nat
  inflight : List EncodingTask
  resolved : List (Nat × Bytes)
  errorLog : List Encodings
  encodeCalls : Nat
  lastInvoke : Option Nat
  trailingPending : Bool
  now : Nat
deriving DecidableEq, Repr

/-- The synchronous body of one actual `updateEncodedBody` run: read
`this.contentEncodings`, invoke the external `encodeBody` with the current
decoded body and those encodings (creating the in-flight task), and then
synchronously publish the fresh promise as `this._encodingPromise`. -/
def scheduleTask (s : EditableBody) : EditableBody :=
  let task : EncodingTask :=
    { id := s.nextTaskId
      capturedDecoded := s.decodedBody
      capturedEncodings := asHeaderArray s.headerValue }
  { s with
    inflight := task :: s.inflight
    encodeCalls := s.encodeCalls + 1
    encodingPromise := s.nextTaskId
    nextTaskId := s.nextTaskId + 1 }

/-- One invocation of the throttled `updateEncodedBody` wrapper at time `t`
(`_.throttle(fn, 500, { leading: true, trailing: true })`): if no run
happened within the last `throttleInterval`, run immediately (leading edge);
otherwise record that a trailing-edge run is due at the interval boundary. -/
def triggerUpdate (t : Nat) (s : EditableBody) : EditableBody :=
  match s.lastInvoke with
  | none => scheduleTask { s with lastInvoke := some t }
  | some li =>
      if li + throttleInterval ≤ t then
        scheduleTask { s with lastInvoke := some t, trailingPending := false }
      else
        { s with trailingPending := true }

/-- The constructor: store the initial decoded body; if an initial encoded
body is provided, store it and publish an already-resolved promise for it
(generation 0, no encoder call); otherwise call `updateEncodedBody`, whose
first (leading-edge) run executes synchronously. -/
def mkEditableBody (initialDecodedBody : Bytes) (initialEncodedBody : Option Bytes)
    (header : HeaderValue) (t : Nat) : EditableBody :=
  let base : EditableBody :=
    { decodedBody := initialDecodedBody
      encodedBody := none
      encodingPromise := 0
      headerValue := header
      prevEncodings := asHeaderArray header
      nextTaskId := 0
      inflight := []
      resolved := []
      errorLog := []
      encodeCalls := 0
      lastInvoke := none
      trailingPending := false
      now := t }
  match initialEncodedBody with
  | some e =>
      { base with
        encodedBody := some e
        resolved := [(0, e)]
        nextTaskId := 1 }
  | none => triggerUpdate t base

/-- The value a completing task resolves with: on fulfillment, the encoder's
bytes; on rejection, the `.catch` fallback returns `this._decodedBody` — read
at completion time (fail-open). -/
def candidateBytes (s : EditableBody) : TaskOutcome → Bytes
  | .ok b => b
  | .error => s.decodedBody

/-- The events of the machine (the atomic blocks of the source, see the
module docstring). -/
inductive Event where
  | setDecoded (t : Nat) (b : Bytes)
  | setHeader (t : Nat) (h : HeaderValue)
  | timerFire (t : Nat)
  | complete (id : Nat) (outcome : TaskOutcome)
deriving DecidableEq, Repr

/-- Settlement of the in-flight task `id` with `outcome`: run the `.catch`
fallback and `logError` on rejection, then the `runInAction` block — commit
the candidate to `_encodedBody` only if this task's promise is still
`this._encodingPromise` — and finally resolve this task's own promise with
the candidate bytes. Returns `none` if no such task is in flight. -/
def completeTask (s : EditableBody) (id : Nat) (outcome : TaskOutcome) :
    Option EditableBody :=
  match s.inflight.find? (fun u => u.id == id) with
  | none => none
  | some task =>
      let cand := candidateBytes s outcome
      let base : EditableBody :=
        { s with
          inflight := s.inflight.filter (fun u => u.id != id)
          resolved := (id, cand) :: s.resolved
          errorLog :=
            match outcome with
            | .ok _ => s.errorLog
            | .error => s.errorLog ++ [task.capturedEncodings] }
      if s.encodingPromise = id then
        some { base with encodedBody := some cand }
      else
        some base

/-- The step function. Timed events must not go back in time; `timerFire` is
enabled exactly when a trailing-edge run is due and the interval boundary has
been reached; `complete` is enabled for in-flight tasks. -/
def step (s : EditableBody) : Event → Option EditableBody
  | .setDecoded t b =>
      if s.now ≤ t then
        some (triggerUpdate t { s with decodedBody := b, now := t })
      else none
  | .setHeader t h =>
      if s.now ≤ t then
        let newEncs := asHeaderArray h
        if newEncs = s.prevEncodings then
          some { s with headerValue := h, now := t }
        else
          some (triggerUpdate t
            { s with headerValue := h, prevEncodings := newEncs, now := t })
      else none
  | .timerFire t =>
      match s.lastInvoke with
      | some li =>
          if s.trailingPending = true ∧ t = li + throttleInterval ∧ s.now ≤ t then
            some (scheduleTask
              { s with now := t, lastInvoke := some t, trailingPending := false })
          else none
      | none => none
  | .complete id outcome => completeTask s id outcome

/-- Run a sequence of events from a state; `none` if any event is disabled. -/
def run (s : EditableBody) : List Event → Option EditableBody
  | [] => some s
  | e :: es =>
      match step s e with
      | none => none
      | some s2 => run s2 es

/-- The `contentLength` getter: `this._encodedBody?.byteLength || 0`. -/
def contentLength (s : EditableBody) : Nat :=
  match s.encodedBody with
  | some b => b.length
  | none => 0

/-- The `decoded` getter. -/
def decoded (s : EditableBody) : Bytes :=
  s.decodedBody

/-- The `encoded` getter: the handle (generation number) of the promise held
in `_encodingPromise`. -/
def encoded (s : EditableBody) : Nat :=
  s.encodingPromise

/-- The resolution value, if any, of the task promise `id`: what a caller
awaiting that specific handle receives. -/
def resolutionOf (s : EditableBody) (id : Nat) : Option Bytes :=
  (s.resolved.find? (fun p => p.1 == id)).map Prod.snd

/-- Leading-edge readiness of the throttle at time `t`: no trailing run is
pending and the previous run (if any) is at least one interval old. -/
def throttleReadyB (s : EditableBody) (t : Nat) : Bool :=
  !s.trailingPending &&
    (match s.lastInvoke with
     | none => true
     | some li => li + throttleInterval ≤ t)

/-- Test fixture: a freshly constructed body with no seeded encoded payload;
task 0 is in flight and current. -/
def body0 : EditableBody := mkEditableBody [1, 2, 3] none HeaderValue.absent 0

/-- Test fixture: `body0` after an edit beyond the throttle window; task 1 is
in flight and current, task 0 is stale. -/
def body1 : EditableBody := (run body0 [Event.setDecoded 600 [4, 5]]).getD body0

/-- Test fixture: `body0` after a synchronous edit within the throttle
window. -/
def body0edited : EditableBody :=
  (step body0 (Event.setDecoded 100 [9])).getD body0

/-- Test fixture: `body0` after task 0 rejects and commits the fail-open
substitute. -/
def body0failed : EditableBody :=
  (step body0 (Event.complete 0 TaskOutcome.error)).getD body0

/-- Test fixture: a body whose header initially normalizes to `["gzip"]`. -/
def gzipBody : EditableBody :=
  mkEditableBody [1] none (HeaderValue.single "gzip") 0

/-- Test fixture: `gzipBody` after a structurally different header value
arrives. -/
def gzipBodyChanged : EditableBody :=
  (step gzipBody (Event.setHeader 9 (HeaderValue.single "br"))).getD gzipBody

/-- Test fixture: a seeded body (constructed with a known encoded payload, so
no initial encoder call). -/
def seededBody : EditableBody :=
  mkEditableBody [0] (some [0]) HeaderValue.absent 0

/-! ## Basic lemmas about the transition functions -/

theorem scheduleTask_decodedBody (s : EditableBody) :
    (scheduleTask s).decodedBody = s.decodedBody := rfl

theorem scheduleTask_encodedBody (s : EditableBody) :
    (scheduleTask s).encodedBody = s.encodedBody := rfl

theorem triggerUpdate_decodedBody (t : Nat) (s : EditableBody) :
    (triggerUpdate t s).decodedBody = s.decodedBody := by
  unfold triggerUpdate
  cases s.lastInvoke with
  | none => rfl
  | some li =>
      dsimp only
      split <;> rfl

theorem triggerUpdate_encodedBody (t : Nat) (s : EditableBody) :
    (triggerUpdate t s).encodedBody = s.encodedBody := by
  unfold triggerUpdate
  cases s.lastInvoke with
  | none => rfl
  | some li =>
      dsimp only
      split <;> rfl

/-- Every throttled-wrapper invocation either runs at once (one more encoder
call) or leaves a trailing-edge run due. -/
theorem triggerUpdate_invokes (t : Nat) (s : EditableBody) :
    (triggerUpdate t s).encodeCalls = s.encodeCalls + 1 ∨
      (triggerUpdate t s).trailingPending = true := by
  unfold triggerUpdate
  cases s.lastInvoke with
  | none => exact Or.inl rfl
  | some li =>
      dsimp only
      split
      · exact Or.inl rfl
      · exact Or.inr rfl

theorem contentLength_congr (s1 s2 : EditableBody)
    (h : s1.encodedBody = s2.encodedBody) : contentLength s1 = contentLength s2 := by
  unfold contentLength
  rw [h]

/-- Unfolding of `throttleReadyB`. -/
theorem throttleReadyB_spec (s : EditableBody) (t : Nat)
    (h : throttleReadyB s t = true) :
    s.trailingPending = false ∧
      ∀ li, s.lastInvoke = some li → li + throttleInterval ≤ t := by
  unfold throttleReadyB at h
  cases hli : s.lastInvoke with
  | none =>
      rw [hli] at h
      simp at h
      exact ⟨h, fun li hl => nomatch hl⟩
  | some li =>
      rw [hli] at h
      simp at h
      refine ⟨h.1, fun li2 hl => ?_⟩
      injection hl with h2
      subst h2
      exact h.2

theorem setTrailingFalse_eq (s : EditableBody) (t : Nat)
    (htp : s.trailingPending = false) :
    ({ s with lastInvoke := some t, trailingPending := false } : EditableBody) =
      { s with lastInvoke := some t } := by
  obtain ⟨d, e, p, hv, pe, nid, inf, res, el, ec, li, tp, n⟩ := s
  dsimp at htp
  subst htp
  rfl

/-- When the throttle is ready at `t`, an invocation runs on the leading edge. -/
theorem triggerUpdate_ready (t : Nat) (s : EditableBody)
    (h : throttleReadyB s t = true) :
    triggerUpdate t s =
      scheduleTask { s with lastInvoke := some t, trailingPending := false } := by
  obtain ⟨htp, hle⟩ := throttleReadyB_spec s t h
  unfold triggerUpdate
  cases hli : s.lastInvoke with
  | none =>
      dsimp only
      rw [setTrailingFalse_eq s t htp]
  | some li =>
      dsimp only
      rw [if_pos (hle li hli)]

/-- Mid-interval, an invocation only marks a trailing-edge run as due. -/
theorem triggerUpdate_throttled (t : Nat) (s : EditableBody) (li : Nat)
    (hli : s.lastInvoke = some li) (hlt : t < li + throttleInterval) :
    triggerUpdate t s = { s with trailingPending := true } := by
  unfold triggerUpdate
  rw [hli]
  dsimp only
  rw [if_neg (by omega)]

/-- A trailing-edge timer that is due fires the scheduled run. -/
theorem step_timerFire (s2 : EditableBody) (li t : Nat)
    (hli : s2.lastInvoke = some li) (htp : s2.trailingPending = true)
    (ht : t = li + throttleInterval) (hnow : s2.now ≤ t) :
    step s2 (.timerFire t) = some (scheduleTask
      { s2 with now := t, lastInvoke := some t, trailingPending := false }) := by
  simp only [step]
  rw [hli]
  dsimp only
  rw [if_pos ⟨htp, ht, hnow⟩]

/-- Completion of the currently pointed-to task commits its candidate. -/
theorem completeTask_current (s : EditableBody) (id : Nat) (task : EncodingTask)
    (o : TaskOutcome)
    (hfind : s.inflight.find? (fun u => u.id == id) = some task)
    (hcur : s.encodingPromise = id) :
    completeTask s id o = some
      { s with
        inflight := s.inflight.filter (fun u => u.id != id)
        resolved := (id, candidateBytes s o) :: s.resolved
        errorLog :=
          match o with
          | .ok _ => s.errorLog
          | .error => s.errorLog ++ [task.capturedEncodings]
        encodedBody := some (candidateBytes s o) } := by
  unfold completeTask
  rw [hfind]
  simp [hcur]

/-- Completion of a superseded task leaves the committed state untouched. -/
theorem completeTask_stale (s : EditableBody) (id : Nat) (task : EncodingTask)
    (o : TaskOutcome)
    (hfind : s.inflight.find? (fun u => u.id == id) = some task)
    (hstale : s.encodingPromise ≠ id) :
    completeTask s id o = some
      { s with
        inflight := s.inflight.filter (fun u => u.id != id)
        resolved := (id, candidateBytes s o) :: s.resolved
        errorLog :=
          match o with
          | .ok _ => s.errorLog
          | .error => s.errorLog ++ [task.capturedEncodings] } := by
  unfold completeTask
  rw [hfind]
  simp [hstale]

/-- `completeTask_current` specialized to a fulfilled outcome. -/
theorem completeTask_current_ok (s : EditableBody) (id : Nat)
    (task : EncodingTask) (b : Bytes)
    (hfind : s.inflight.find? (fun u => u.id == id) = some task)
    (hcur : s.encodingPromise = id) :
    completeTask s id (.ok b) = some
      { s with
        inflight := s.inflight.filter (fun u => u.id != id)
        resolved := (id, b) :: s.resolved
        encodedBody := some b } := by
  rw [completeTask_current s id task (.ok b) hfind hcur]
  rfl

/-- `completeTask_stale` specialized to a fulfilled outcome. -/
theorem completeTask_stale_ok (s : EditableBody) (id : Nat)
    (task : EncodingTask) (b : Bytes)
    (hfind : s.inflight.find? (fun u => u.id == id) = some task)
    (hstale : s.encodingPromise ≠ id) :
    completeTask s id (.ok b) = some
      { s with
        inflight := s.inflight.filter (fun u => u.id != id)
        resolved := (id, b) :: s.resolved } := by
  rw [completeTask_stale s id task (.ok b) hfind hstale]
  rfl

/-! ## Claim theorems -/

/-- **C6** — Seeded construction skips recompute: constructing with both an
initial decoded and an initial encoded payload performs zero calls to the
external encoder, uses the provided encoded bytes verbatim as the committed
`_encodedBody` and as the resolved value of the initial `encoded` handle, and
no throttle timer is pending (so no encoder call can occur until a real
trigger — a `setDecoded` or a structural encoding-spec change — arrives).
Constructing without an initial encoded payload invokes the encoder once. -/
theorem seededConstructionSkipsRecompute (d e : Bytes) (h : HeaderValue)
    (t t2 : Nat) :
    (mkEditableBody d (some e) h t).encodeCalls = 0 ∧
    (mkEditableBody d (some e) h t).encodedBody = some e ∧
    resolutionOf (mkEditableBody d (some e) h t)
      (encoded (mkEditableBody d (some e) h t)) = some e ∧
    step (mkEditableBody d (some e) h t) (.timerFire t2) = none ∧
    (mkEditableBody d none h t).encodeCalls = 1 :=
  ⟨rfl, rfl, rfl, rfl, rfl⟩

/-- **C9** — Decoded accessor correctness: `updateDecodedBody` at any time
`t ≥ now` always succeeds, and immediately afterwards the `decoded` getter
returns exactly the new bytes, for an arbitrary prior state of the cache. -/
theorem updateDecodedBodyCorrect (s : EditableBody) (t : Nat) (b : Bytes)
    (ht : s.now ≤ t) :
    ∃ s2, step s (.setDecoded t b) = some s2 ∧ decoded s2 = b := by
  refine ⟨triggerUpdate t { s with decodedBody := b, now := t }, ?_, ?_⟩
  · simp [step, ht]
  · show (triggerUpdate t { s with decodedBody := b, now := t }).decodedBody = b
    rw [triggerUpdate_decodedBody]

/-- Closed witness for C9. -/
theorem updateDecodedBodyCorrect_witness :
    (mkEditableBody [1, 2, 3] none .absent 0).now ≤ 7 ∧
    ∃ s2, step (mkEditableBody [1, 2, 3] none .absent 0) (.setDecoded 7 [4, 5]) =
        some s2 ∧ decoded s2 = [4, 5] :=
  ⟨by decide,
   updateDecodedBodyCorrect (mkEditableBody [1, 2, 3] none .absent 0) 7 [4, 5]
     (by decide)⟩

/-- **C2 counterexample** — the claim says the committed `EncodedPayload`
equals the decoded payload `d` that the failing task was scheduled with. In
the source, the `.catch` fallback returns `this._decodedBody` read at
completion time. Concretely: construct with decoded `[1,2,3]` (task 0 is
scheduled capturing `[1,2,3]`), then `updateDecodedBody [9]` inside the
throttle window (no new task is scheduled, only a trailing run becomes due),
then let task 0 reject. Task 0 is still the current task, so the commit
happens — but it commits `[9]`, the decoded body at rejection time, not the
`[1,2,3]` it was scheduled with. -/
theorem failOpen_counterexample :
    (mkEditableBody [1, 2, 3] none .absent 0).inflight =
      [{ id := 0, capturedDecoded := [1, 2, 3], capturedEncodings := [] }] ∧
    (run (mkEditableBody [1, 2, 3] none .absent 0)
        [.setDecoded 100 [9], .complete 0 .error]).map (·.encodedBody) =
      some (some [9]) ∧
    some (some ([9] : Bytes)) ≠ some (some ([1, 2, 3] : Bytes)) := by
  refine ⟨rfl, rfl, by decide⟩

/-- **C2 (amended)** — Fail-open on encoder failure: if the in-flight task
`id` is still the current one and its encoder rejects, the committed
`_encodedBody` becomes exactly the decoded payload current at completion time
(hence `contentLength` is its byte length), and `logError` is invoked exactly
once more, with the encodings captured by that task as context. When no
decoded-body update intervened between scheduling and rejection, the
committed bytes are exactly the `d` the task was scheduled with. -/
theorem failOpen_amended (s : EditableBody) (id : Nat) (task : EncodingTask)
    (hfind : s.inflight.find? (fun u => u.id == id) = some task)
    (hcur : s.encodingPromise = id) :
    (step s (.complete id .error)).map (·.encodedBody) =
      some (some s.decodedBody) ∧
    (step s (.complete id .error)).map contentLength =
      some s.decodedBody.length ∧
    (step s (.complete id .error)).map (·.errorLog) =
      some (s.errorLog ++ [task.capturedEncodings]) ∧
    (s.decodedBody = task.capturedDecoded →
      (step s (.complete id .error)).map (·.encodedBody) =
        some (some task.capturedDecoded)) := by
  rw [show step s (.complete id .error) = completeTask s id .error from rfl,
      completeTask_current s id task .error hfind hcur]
  refine ⟨rfl, rfl, rfl, fun hd => ?_⟩
  rw [← hd]
  rfl

/-- Closed witness for C2 (amended): at `body0` (fresh construction, task 0
in flight and current), rejection commits the decoded bytes and logs once. -/
theorem failOpen_amended_witness :
    ((mkEditableBody [1, 2, 3] none .absent 0).inflight.find?
        (fun u => u.id == 0) =
      some { id := 0, capturedDecoded := [1, 2, 3], capturedEncodings := [] }) ∧
    ((mkEditableBody [1, 2, 3] none .absent 0).encodingPromise = 0) ∧
    ((step (mkEditableBody [1, 2, 3] none .absent 0)
        (.complete 0 .error)).map (·.encodedBody) = some (some [1, 2, 3])) ∧
    ((step (mkEditableBody [1, 2, 3] none .absent 0)
        (.complete 0 .error)).map (·.errorLog) = some [[]]) :=
  ⟨by decide, by decide,
   (failOpen_amended (mkEditableBody [1, 2, 3] none .absent 0) 0
     { id := 0, capturedDecoded := [1, 2, 3], capturedEncodings := [] }
     (by decide) (by decide)).1,
   (failOpen_amended (mkEditableBody [1, 2, 3] none .absent 0) 0
     { id := 0, capturedDecoded := [1, 2, 3], capturedEncodings := [] }
     (by decide) (by decide)).2.2.1⟩

/-- **C3** — No public operation fails because of an encoding failure: a
completion step is defined for every outcome (rejection included); a
rejecting completion still resolves that task's own promise handle with bytes
(the fail-open substitute, the decoded payload at completion time), never
with a rejection; and `updateDecodedBody` is always defined. The getters
`decoded`, `contentLength` and `encoded` are total functions of the state by
construction. -/
theorem noFailurePropagation (s : EditableBody) (id : Nat)
    (task : EncodingTask) (o : TaskOutcome) (t : Nat) (b : Bytes)
    (hfind : s.inflight.find? (fun u => u.id == id) = some task)
    (ht : s.now ≤ t) :
    (step s (.complete id o)).isSome = true ∧
    (step s (.complete id .error)).map (fun s2 => resolutionOf s2 id) =
      some (some s.decodedBody) ∧
    (step s (.setDecoded t b)).isSome = true := by
  refine ⟨?_, ?_, ?_⟩
  · show (completeTask s id o).isSome = true
    unfold completeTask
    rw [hfind]
    dsimp only
    split <;> rfl
  · show (completeTask s id .error).map (fun s2 => resolutionOf s2 id) =
      some (some s.decodedBody)
    by_cases hcur : s.encodingPromise = id
    · rw [completeTask_current s id task .error hfind hcur]
      simp [resolutionOf, candidateBytes]
    · rw [completeTask_stale s id task .error hfind hcur]
      simp [resolutionOf, candidateBytes]
  · simp [step, ht]

/-- Closed witness for C3. -/
theorem noFailurePropagation_witness :
    ((mkEditableBody [1, 2] none .absent 0).inflight.find?
        (fun u => u.id == 0) =
      some { id := 0, capturedDecoded := [1, 2], capturedEncodings := [] }) ∧
    ((mkEditableBody [1, 2] none .absent 0).now ≤ 3) ∧
    ((step (mkEditableBody [1, 2] none .absent 0)
        (.complete 0 .error)).isSome = true) ∧
    ((step (mkEditableBody [1, 2] none .absent 0)
        (.complete 0 .error)).map (fun s2 => resolutionOf s2 0) =
      some (some [1, 2])) :=
  ⟨by decide, by decide,
   (noFailurePropagation (mkEditableBody [1, 2] none .absent 0) 0
     { id := 0, capturedDecoded := [1, 2], capturedEncodings := [] }
     .error 3 [7] (by decide) (by decide)).1,
   (noFailurePropagation (mkEditableBody [1, 2] none .absent 0) 0
     { id := 0, capturedDecoded := [1, 2], capturedEncodings := [] }
     .error 3 [7] (by decide) (by decide)).2.1⟩

/-- **C4** — Stale tasks are discarded but still resolve: completing a task
that is no longer pointed to by `_encodingPromise` leaves the committed
`_encodedBody` and `contentLength` unchanged, yet the task's own promise
handle resolves with the candidate bytes it computed (its encoder's result,
or the fail-open substitute on rejection). -/
theorem staleTaskDiscardedStillResolves (s : EditableBody) (id : Nat)
    (task : EncodingTask) (o : TaskOutcome)
    (hfind : s.inflight.find? (fun u => u.id == id) = some task)
    (hstale : s.encodingPromise ≠ id) :
    (step s (.complete id o)).map (·.encodedBody) = some s.encodedBody ∧
    (step s (.complete id o)).map contentLength = some (contentLength s) ∧
    (step s (.complete id o)).map (fun s2 => resolutionOf s2 id) =
      some (some (candidateBytes s o)) := by
  rw [show step s (.complete id o) = completeTask s id o from rfl,
      completeTask_stale s id task o hfind hstale]
  refine ⟨rfl, rfl, ?_⟩
  simp [resolutionOf]

/-- Closed witness for C4: in `body1`, task 0 is stale (task 1 is current);
its completion with bytes `[10]` does not change the committed state but
resolves its own handle with `[10]`. -/
theorem staleTaskDiscardedStillResolves_witness :
    (body1.inflight.find? (fun u => u.id == 0) =
      some { id := 0, capturedDecoded := [1, 2, 3], capturedEncodings := [] }) ∧
    (body1.encodingPromise ≠ 0) ∧
    ((step body1 (.complete 0 (.ok [10]))).map (·.encodedBody) =
      some body1.encodedBody) ∧
    ((step body1 (.complete 0 (.ok [10]))).map (fun s2 => resolutionOf s2 0) =
      some (some (candidateBytes body1 (.ok [10])))) :=
  ⟨by decide, by decide,
   (staleTaskDiscardedStillResolves body1 0
     { id := 0, capturedDecoded := [1, 2, 3], capturedEncodings := [] }
     (.ok [10]) (by decide) (by decide)).1,
   (staleTaskDiscardedStillResolves body1 0
     { id := 0, capturedDecoded := [1, 2, 3], capturedEncodings := [] }
     (.ok [10]) (by decide) (by decide)).2.2⟩

/-- **C1** — Last-scheduled-wins: take any state with two in-flight tasks `A`
and `B` where `B` is the one the synchronously updated `_encodingPromise`
pointer designates (i.e. `B` was scheduled after `A`; scheduling updates the
pointer before the asynchronous encode can settle). Whichever completion
order occurs — `B` before `A` or `A` before `B` — the committed
`_encodedBody` (and hence `contentLength`) reflects `B`'s result `bB`, never
`A`'s result `bA`. -/
theorem lastScheduledWins (s : EditableBody) (A B : EncodingTask)
    (bA bB : Bytes)
    (hA : A ∈ s.inflight) (hB : B ∈ s.inflight) (hne : A.id ≠ B.id)
    (hcur : s.encodingPromise = B.id) :
    (run s [.complete B.id (.ok bB), .complete A.id (.ok bA)]).map
        (·.encodedBody) = some (some bB) ∧
    (run s [.complete A.id (.ok bA), .complete B.id (.ok bB)]).map
        (·.encodedBody) = some (some bB) ∧
    (run s [.complete B.id (.ok bB), .complete A.id (.ok bA)]).map
        contentLength = some bB.length := by
  obtain ⟨tB, htB⟩ : ∃ u, s.inflight.find? (fun v => v.id == B.id) = some u := by
    rw [← Option.isSome_iff_exists, List.find?_isSome]
    exact ⟨B, hB, by simp⟩
  obtain ⟨tA0, htA0⟩ : ∃ u, s.inflight.find? (fun v => v.id == A.id) = some u := by
    rw [← Option.isSome_iff_exists, List.find?_isSome]
    exact ⟨A, hA, by simp⟩
  -- order 1: B's encode settles first, then A's
  have hstepB : completeTask s B.id (.ok bB) = some
      { s with
        inflight := s.inflight.filter (fun u => u.id != B.id)
        resolved := (B.id, bB) :: s.resolved
        encodedBody := some bB } :=
    completeTask_current_ok s B.id tB bB htB hcur
  obtain ⟨tA, htA⟩ : ∃ u, (s.inflight.filter (fun v => v.id != B.id)).find?
      (fun v => v.id == A.id) = some u := by
    rw [← Option.isSome_iff_exists, List.find?_isSome]
    exact ⟨A, List.mem_filter.mpr ⟨hA, by simpa using hne⟩, by simp⟩
  have hstepA : completeTask
      { s with
        inflight := s.inflight.filter (fun u => u.id != B.id)
        resolved := (B.id, bB) :: s.resolved
        encodedBody := some bB } A.id (.ok bA) = some
      { s with
        inflight := (s.inflight.filter (fun u => u.id != B.id)).filter
          (fun u => u.id != A.id)
        resolved := (A.id, bA) :: (B.id, bB) :: s.resolved
        encodedBody := some bB } :=
    completeTask_stale_ok _ A.id tA bA htA
      (by show s.encodingPromise ≠ A.id; rw [hcur]; exact Ne.symm hne)
  -- order 2: A's encode settles first, then B's
  have hstepA2 : completeTask s A.id (.ok bA) = some
      { s with
        inflight := s.inflight.filter (fun u => u.id != A.id)
        resolved := (A.id, bA) :: s.resolved } :=
    completeTask_stale_ok s A.id tA0 bA htA0
      (by rw [hcur]; exact Ne.symm hne)
  obtain ⟨tB2, htB2⟩ : ∃ u, (s.inflight.filter (fun v => v.id != A.id)).find?
      (fun v => v.id == B.id) = some u := by
    rw [← Option.isSome_iff_exists, List.find?_isSome]
    exact ⟨B, List.mem_filter.mpr ⟨hB, by simpa using Ne.symm hne⟩, by simp⟩
  have hstepB2 : completeTask
      { s with
        inflight := s.inflight.filter (fun u => u.id != A.id)
        resolved := (A.id, bA) :: s.resolved } B.id (.ok bB) = some
      { s with
        inflight := (s.inflight.filter (fun u => u.id != A.id)).filter
          (fun u => u.id != B.id)
        resolved := (B.id, bB) :: (A.id, bA) :: s.resolved
        encodedBody := some bB } :=
    completeTask_current_ok _ B.id tB2 bB htB2 (by exact hcur)
  refine ⟨?_, ?_, ?_⟩
  · simp only [run, hstepB, step, hstepA]
    rfl
  · simp only [run, hstepA2, step, hstepB2]
    rfl
  · simp only [run, hstepB, step, hstepA]
    rfl

/-- Closed witness for C1: in `body1`, task 0 (scheduled first, capturing
`[1,2,3]`) overlaps task 1 (scheduled second, capturing `[4,5]`); in both
completion orders the committed encoded bytes are task 1's `[8,8]`. -/
theorem lastScheduledWins_witness :
    (({ id := 0, capturedDecoded := [1, 2, 3], capturedEncodings := [] } :
        EncodingTask) ∈ body1.inflight) ∧
    (({ id := 1, capturedDecoded := [4, 5], capturedEncodings := [] } :
        EncodingTask) ∈ body1.inflight) ∧
    ((0 : Nat) ≠ 1) ∧
    (body1.encodingPromise = 1) ∧
    ((run body1 [.complete 1 (.ok [8, 8]), .complete 0 (.ok [7])]).map
        (·.encodedBody) = some (some [8, 8])) ∧
    ((run body1 [.complete 0 (.ok [7]), .complete 1 (.ok [8, 8])]).map
        (·.encodedBody) = some (some [8, 8])) :=
  ⟨by decide, by decide, by decide, by decide,
   (lastScheduledWins body1
     { id := 0, capturedDecoded := [1, 2, 3], capturedEncodings := [] }
     { id := 1, capturedDecoded := [4, 5], capturedEncodings := [] }
     [7] [8, 8] (by decide) (by decide) (by decide) (by decide)).1,
   (lastScheduledWins body1
     { id := 0, capturedDecoded := [1, 2, 3], capturedEncodings := [] }
     { id := 1, capturedDecoded := [4, 5], capturedEncodings := [] }
     [7] [8, 8] (by decide) (by decide) (by decide) (by decide)).2.1⟩

/-- **C10** — Frame property of `updateDecodedBody`: a decoded-body update
never synchronously changes the committed `_encodedBody`; right after the
call, `contentLength` still reports the previously committed bytes (or 0 if
none were committed). Moreover, *any* step that changes the committed
`_encodedBody` is the completion of the task currently designated by the
`_encodingPromise` pointer. -/
theorem updateDecodedBodyFrame (s s1 s2 : EditableBody) (t : Nat) (b : Bytes)
    (e : Event)
    (h1 : step s (.setDecoded t b) = some s1)
    (h2 : step s e = some s2)
    (h3 : s2.encodedBody ≠ s.encodedBody) :
    s1.encodedBody = s.encodedBody ∧ contentLength s1 = contentLength s ∧
    ∃ id o, e = Event.complete id o ∧ s.encodingPromise = id := by
  have hframe : s1.encodedBody = s.encodedBody := by
    simp only [step] at h1
    split at h1
    · injection h1 with h1e
      rw [← h1e, triggerUpdate_encodedBody]
    · cases h1
  refine ⟨hframe, contentLength_congr s1 s hframe, ?_⟩
  cases e with
  | setDecoded t2 b2 =>
      exfalso
      simp only [step] at h2
      split at h2
      · injection h2 with h2e
        exact h3 (by rw [← h2e, triggerUpdate_encodedBody])
      · cases h2
  | setHeader t2 hv2 =>
      exfalso
      simp only [step] at h2
      split at h2
      · split at h2
        · injection h2 with h2e
          exact h3 (by rw [← h2e])
        · injection h2 with h2e
          exact h3 (by rw [← h2e, triggerUpdate_encodedBody])
      · cases h2
  | timerFire t2 =>
      exfalso
      simp only [step] at h2
      cases hli : s.lastInvoke with
      | none => rw [hli] at h2; cases h2
      | some li =>
          rw [hli] at h2
          dsimp only at h2
          split at h2
          · injection h2 with h2e
            exact h3 (by rw [← h2e, scheduleTask_encodedBody])
          · cases h2
  | complete id o =>
      refine ⟨id, o, rfl, ?_⟩
      by_contra hne2
      have h2c : step s (.complete id o) = completeTask s id o := rfl
      rw [h2c] at h2
      cases hf : s.inflight.find? (fun u => u.id == id) with
      | none =>
          unfold completeTask at h2
          rw [hf] at h2
          cases h2
      | some task =>
          rw [completeTask_stale s id task o hf hne2] at h2
          injection h2 with h2e
          exact h3 (by rw [← h2e])

/-- Closed witness for C10: at `body0`, the task-0 rejection changes the
committed state (so the frame theorem applies with that as the
encoded-changing event), while `updateDecodedBody` itself leaves it
unchanged. -/
theorem updateDecodedBodyFrame_witness :
    (step body0 (.setDecoded 100 [9]) = some body0edited) ∧
    (step body0 (.complete 0 .error) = some body0failed) ∧
    (body0failed.encodedBody ≠ body0.encodedBody) ∧
    (body0edited.encodedBody = body0.encodedBody ∧
     contentLength body0edited = contentLength body0 ∧
     ∃ id o, Event.complete 0 TaskOutcome.error = Event.complete id o ∧
       body0.encodingPromise = id) :=
  ⟨by decide, by decide, by decide,
   updateDecodedBodyFrame body0 body0edited body0failed 100 [9]
     (.complete 0 .error) (by decide) (by decide) (by decide)⟩

/-- **C7** — Header-equality idempotence: a header-accessor change whose
value normalizes to the same ordered token sequence as the currently observed
one leaves the cache state untouched apart from the raw header value and the
clock — no encoding task is scheduled, no trailing run becomes due, the
promise pointer is unchanged. A value that normalizes to a structurally
different sequence does trigger the recomputation gate: either an encode task
is scheduled at once (leading edge) or a trailing run becomes due. A single
string and a one-element sequence holding the same token normalize alike. -/
theorem headerEqualityIdempotence (s : EditableBody) (t : Nat)
    (hsame hdiff : HeaderValue) (x : String) (s2 : EditableBody)
    (ht : s.now ≤ t)
    (heq : asHeaderArray hsame = s.prevEncodings)
    (hne : asHeaderArray hdiff ≠ s.prevEncodings)
    (h2 : step s (.setHeader t hdiff) = some s2) :
    step s (.setHeader t hsame) =
      some { s with headerValue := hsame, now := t } ∧
    (s2.encodeCalls = s.encodeCalls + 1 ∨ s2.trailingPending = true) ∧
    asHeaderArray (.single x) = asHeaderArray (.multi [x]) := by
  refine ⟨?_, ?_, ?_⟩
  · simp [step, ht, heq]
  · simp only [step, if_pos ht, if_neg hne] at h2
    injection h2 with h2e
    rw [← h2e]
    exact triggerUpdate_invokes t _
  · show headerTokens x = [x].flatMap headerTokens
    simp [List.flatMap]

/-- Closed witness for C7: `gzipBody` observes `["gzip"]`; switching the raw
header value to the one-element array form `["gzip"]` changes nothing, while
switching it to `"br"` triggers the gate. -/
theorem headerEqualityIdempotence_witness :
    (gzipBody.now ≤ 9) ∧
    (asHeaderArray (.multi ["gzip"]) = gzipBody.prevEncodings) ∧
    (asHeaderArray (.single "br") ≠ gzipBody.prevEncodings) ∧
    (step gzipBody (.setHeader 9 (.single "br")) = some gzipBodyChanged) ∧
    (step gzipBody (.setHeader 9 (.multi ["gzip"])) =
      some { gzipBody with headerValue := .multi ["gzip"], now := 9 }) ∧
    (gzipBodyChanged.encodeCalls = gzipBody.encodeCalls + 1 ∨
      gzipBodyChanged.trailingPending = true) :=
  ⟨by decide, by decide, by decide, by decide,
   (headerEqualityIdempotence gzipBody 9 (.multi ["gzip"]) (.single "br")
     "zstd" gzipBodyChanged (by decide) (by decide) (by decide)
     (by decide)).1,
   (headerEqualityIdempotence gzipBody 9 (.multi ["gzip"]) (.single "br")
     "zstd" gzipBodyChanged (by decide) (by decide) (by decide)
     (by decide)).2.1⟩

/-- **C8** — No-encoding passthrough: when the current header normalizes to
the empty encoding sequence and the throttle is ready, a decoded-body update
still invokes the external encoder (one more encoder call, with the empty
encoding list — no special case for empty specs), and if that encoder run
returns its input unchanged, the committed `_encodedBody` equals the decoded
payload, so `contentLength` equals the decoded byte length. -/
theorem emptyEncodingPassthrough (s : EditableBody) (t : Nat) (d : Bytes)
    (hready : throttleReadyB s t = true) (hn : s.now ≤ t)
    (hempty : asHeaderArray s.headerValue = []) :
    (step s (.setDecoded t d)).map (·.encodeCalls) =
      some (s.encodeCalls + 1) ∧
    (step s (.setDecoded t d)).map (·.inflight.head?) =
      some (some
        { id := s.nextTaskId, capturedDecoded := d, capturedEncodings := [] }) ∧
    (run s [.setDecoded t d, .complete s.nextTaskId (.ok d)]).map
        (·.encodedBody) = some (some d) ∧
    (run s [.setDecoded t d, .complete s.nextTaskId (.ok d)]).map
        contentLength = some d.length := by
  set sA : EditableBody := scheduleTask
    { s with
      decodedBody := d
      now := t
      lastInvoke := some t
      trailingPending := false } with hsA
  have hA : step s (.setDecoded t d) = some sA := by
    simp only [step, if_pos hn]
    rw [triggerUpdate_ready t { s with decodedBody := d, now := t } hready]
  have hfind : sA.inflight.find? (fun u => u.id == s.nextTaskId) =
      some
        { id := s.nextTaskId
          capturedDecoded := d
          capturedEncodings := asHeaderArray s.headerValue } := by
    rw [hsA]
    apply List.find?_cons_of_pos
    simp
  have hB : completeTask sA s.nextTaskId (.ok d) = some
      { sA with
        inflight := sA.inflight.filter (fun u => u.id != s.nextTaskId)
        resolved := (s.nextTaskId, d) :: sA.resolved
        encodedBody := some d } :=
    completeTask_current_ok sA s.nextTaskId
      { id := s.nextTaskId
        capturedDecoded := d
        capturedEncodings := asHeaderArray s.headerValue } d hfind rfl
  have hstep2 : step sA (Event.complete s.nextTaskId (TaskOutcome.ok d)) =
      some
        { sA with
          inflight := sA.inflight.filter (fun u => u.id != s.nextTaskId)
          resolved := (s.nextTaskId, d) :: sA.resolved
          encodedBody := some d } := hB
  refine ⟨?_, ?_, ?_, ?_⟩
  · rw [hA]
    rfl
  · rw [hA, hsA]
    simp [scheduleTask, hempty]
  · simp only [run, hA, hstep2]
    rfl
  · simp only [run, hA, hstep2]
    rfl

/-- Closed witness for C8: the seeded body observes an absent header (empty
encoding spec); editing it still schedules task 1 with the empty spec, and an
identity encoder run commits the decoded bytes. -/
theorem emptyEncodingPassthrough_witness :
    (throttleReadyB seededBody 5 = true) ∧
    (seededBody.now ≤ 5) ∧
    (asHeaderArray seededBody.headerValue = []) ∧
    ((step seededBody (.setDecoded 5 [7, 8])).map (·.encodeCalls) =
      some (seededBody.encodeCalls + 1)) ∧
    ((run seededBody [.setDecoded 5 [7, 8],
        .complete seededBody.nextTaskId (.ok [7, 8])]).map (·.encodedBody) =
      some (some [7, 8])) :=
  ⟨by decide, by decide, by decide,
   (emptyEncodingPassthrough seededBody 5 [7, 8] (by decide) (by decide)
     (by decide)).1,
   (emptyEncodingPassthrough seededBody 5 [7, 8] (by decide) (by decide)
     (by decide)).2.2.1⟩

/-- **C5** — Throttled coalescence: from a quiescent throttle, three
`setDecoded` calls inside one interval window cause exactly one immediate
(leading-edge) encoder invocation; the trailing-edge run at the interval
boundary is the only additional invocation (so two in total), and it captures
the decoded payload and encoding spec current at run time — the final values
`b2` and the current header's normalization — not the values of an
intermediate trigger. The trailing task also becomes the current promise. -/
theorem throttleCoalescence (s : EditableBody) (t0 t1 t2 : Nat)
    (b0 b1 b2 : Bytes)
    (hready : throttleReadyB s t0 = true) (hn : s.now ≤ t0)
    (h01 : t0 ≤ t1) (h12 : t1 ≤ t2) (hwin : t2 < t0 + throttleInterval) :
    (run s [.setDecoded t0 b0, .setDecoded t1 b1, .setDecoded t2 b2]).map
        (·.encodeCalls) = some (s.encodeCalls + 1) ∧
    (run s [.setDecoded t0 b0, .setDecoded t1 b1, .setDecoded t2 b2,
        .timerFire (t0 + throttleInterval)]).map (·.encodeCalls) =
      some (s.encodeCalls + 2) ∧
    (run s [.setDecoded t0 b0, .setDecoded t1 b1, .setDecoded t2 b2,
        .timerFire (t0 + throttleInterval)]).map (·.inflight.head?) =
      some (some
        { id := s.nextTaskId + 1
          capturedDecoded := b2
          capturedEncodings := asHeaderArray s.headerValue }) ∧
    (run s [.setDecoded t0 b0, .setDecoded t1 b1, .setDecoded t2 b2,
        .timerFire (t0 + throttleInterval)]).map (·.encodingPromise) =
      some (s.nextTaskId + 1) := by
  set sA : EditableBody := scheduleTask
    { s with
      decodedBody := b0
      now := t0
      lastInvoke := some t0
      trailingPending := false } with hsA
  have hA : step s (.setDecoded t0 b0) = some sA := by
    simp only [step, if_pos hn]
    rw [triggerUpdate_ready t0 { s with decodedBody := b0, now := t0 } hready]
  set sB : EditableBody :=
    { sA with decodedBody := b1, now := t1, trailingPending := true } with hsB
  have hB : step sA (.setDecoded t1 b1) = some sB := by
    simp only [step]
    rw [if_pos (show sA.now ≤ t1 from h01)]
    rw [triggerUpdate_throttled t1 { sA with decodedBody := b1, now := t1 }
      t0 rfl (by omega)]
  set sC : EditableBody :=
    { sB with decodedBody := b2, now := t2, trailingPending := true } with hsC
  have hC : step sB (.setDecoded t2 b2) = some sC := by
    simp only [step]
    rw [if_pos (show sB.now ≤ t2 from h12)]
    rw [triggerUpdate_throttled t2 { sB with decodedBody := b2, now := t2 }
      t0 rfl (by omega)]
  set sD : EditableBody := scheduleTask
    { sC with
      now := t0 + throttleInterval
      lastInvoke := some (t0 + throttleInterval)
      trailingPending := false } with hsD
  have hD : step sC (.timerFire (t0 + throttleInterval)) = some sD :=
    step_timerFire sC t0 (t0 + throttleInterval) rfl rfl rfl
      (by show t2 ≤ t0 + throttleInterval; omega)
  have hrun3 : run s [.setDecoded t0 b0, .setDecoded t1 b1,
      .setDecoded t2 b2] = some sC := by
    simp only [run, hA, hB, hC]
  have hrun4 : run s [.setDecoded t0 b0, .setDecoded t1 b1, .setDecoded t2 b2,
      .timerFire (t0 + throttleInterval)] = some sD := by
    simp only [run, hA, hB, hC, hD]
  refine ⟨?_, ?_, ?_, ?_⟩
  · rw [hrun3]
    rfl
  · rw [hrun4]
    rfl
  · rw [hrun4]
    rfl
  · rw [hrun4]
    rfl

/-- Closed witness for C5: three edits of the seeded body at times 10, 20, 30
produce one leading encoder call; the trailing run at 510 is the single
additional call and captures the final payload `[3]`. -/
theorem throttleCoalescence_witness :
    (throttleReadyB seededBody 10 = true) ∧
    (seededBody.now ≤ 10) ∧
    ((10 : Nat) ≤ 20) ∧ ((20 : Nat) ≤ 30) ∧ (30 < 10 + throttleInterval) ∧
    ((run seededBody [.setDecoded 10 [1], .setDecoded 20 [2],
        .setDecoded 30 [3]]).map (·.encodeCalls) =
      some (seededBody.encodeCalls + 1)) ∧
    ((run seededBody [.setDecoded 10 [1], .setDecoded 20 [2],
        .setDecoded 30 [3], .timerFire (10 + throttleInterval)]).map
        (·.encodeCalls) = some (seededBody.encodeCalls + 2)) ∧
    ((run seededBody [.setDecoded 10 [1], .setDecoded 20 [2],
        .setDecoded 30 [3], .timerFire (10 + throttleInterval)]).map
        (·.inflight.head?) =
      some (some
        { id := seededBody.nextTaskId + 1
          capturedDecoded := [3]
          capturedEncodings := asHeaderArray seededBody.headerValue })) :=
  ⟨by decide, by decide, by decide, by decide, by decide,
   (throttleCoalescence seededBody 10 20 30 [1] [2] [3] (by decide)
     (by decide) (by decide) (by decide) (by decide)).1,
   (throttleCoalescence seededBody 10 20 30 [1] [2] [3] (by decide)
     (by decide) (by decide) (by decide) (by decide)).2.1,
   (throttleCoalescence seededBody 10 20 30 [1] [2] [3] (by decide)
     (by decide) (by decide) (by decide) (by decide)).2.2.1⟩

end EditableBodySpec
